import Mathlib

/-!
# Verification of `zip_tool.py`

A shallow embedding of the command-line ZIP compress/extract utility
`src/zip_tool.py`, together with theorems settling the specification
claims about it.

The embedding models:

* the archiver `compress_folder` (lines 15-63 of the source),
* the extractor `extract_zip` (lines 66-138),
* the dispatcher `main` (lines 141-180), including the exit-code
  behaviour of Python's `argparse` library on malformed command lines.

External library behaviour (`pathlib.Path.suffix`, `str.lower`,
`zipfile.ZipFile.testzip`, `argparse`) is modelled faithfully from the
documented semantics of those Python library functions, at the
granularity the source code relies on.  Filesystem effects are made
explicit: the archiver takes a snapshot of the source directory tree,
and the extractor records which directories were created, whether the
archive container was opened, and which files were written.  I/O that
can fail per entry (the `zipf.extract` call inside the per-entry
`try`) is driven by an oracle `writeFails : List Bool` giving, for
each entry position, whether the write attempt raises an `OSError`.
-/

namespace ZipTool

/-! ## Strings and path predicates

The extractor's safety check on source line 119 is
`'..' in file_info.filename or file_info.filename.startswith('/')`.
`containsDD` models the Python substring test `'..' in s` at the
character level; `startsWithSlash` models `s.startswith('/')`.
-/

/-- Models Python `'..' in s`: true iff two consecutive `'.'`
characters occur in the character list. -/
def containsDD : List Char → Bool
  | [] => false
  | [_] => false
  | c :: d :: rest => (c == '.' && d == '.') || containsDD (d :: rest)

/-- Models Python `s.startswith('/')`. -/
def startsWithSlash (s : String) : Bool :=
  match s.toList with
  | [] => false
  | c :: _ => c == '/'

/-- Models the Python substring test `'..' in s` on a `String`. -/
def hasDotDot (s : String) : Bool :=
  containsDD s.toList

/-- The extractor's path-safety predicate, source line 119:
`'..' in file_info.filename or file_info.filename.startswith('/')`. -/
def isUnsafeName (s : String) : Bool :=
  hasDotDot s || startsWithSlash s

/-- Split a character list on `'/'` separators into path segments
(the usual notion of path components of a `/`-separated name). -/
def splitSegs : List Char → List (List Char)
  | [] => [[]]
  | c :: cs =>
    if c = '/' then [] :: splitSegs cs
    else
      match splitSegs cs with
      | [] => [[c]]
      | s :: ss => (c :: s) :: ss

/-- The specification's notion of a parent-directory traversal
component: some `/`-separated segment of the name is exactly `..`. -/
def hasDotDotSegment (s : String) : Bool :=
  (splitSegs s.toList).contains ['.', '.']

/-- Models CPython `pathlib.PurePath.suffix` on a final path
component: the substring from the last `'.'`, provided that dot is
neither the first nor the last character; otherwise `""`. -/
def lastDotIdx (cs : List Char) : Option Nat :=
  ((List.range cs.length).filter (fun i => cs.getD i ' ' == '.')).getLast?

/-- `pathlib.Path.suffix` of a file name (final path component). -/
def pySuffix (name : String) : String :=
  let cs := name.toList
  match lastDotIdx cs with
  | none => ""
  | some i => if 0 < i && i < cs.length - 1 then String.mk (cs.drop i) else ""

/-- Models Python `str.lower` (ASCII case folding, which is all the
case-insensitive `'.zip'` comparison on source line 88 needs). -/
def pyLower (s : String) : String :=
  String.mk (s.toList.map Char.toLower)

/-- Models `str(PurePath)` for a relative path given as segments: the
segments joined with `'/'` (the arcname written by the archiver for
`file_path.relative_to(folder_path)` on source line 54). -/
def pyJoin : List String → String
  | [] => ""
  | [s] => s
  | s :: ss => s ++ "/" ++ pyJoin ss

/-! ## The archiver: `compress_folder` (source lines 15-63)

The source directory is snapshot as the list of results of
`folder_path.rglob('*')` (source line 51): each filesystem entry under
the root, as its relative path (a list of name segments) plus its
node kind.  Only regular files are written into the archive (line 52),
under their joined relative path (lines 54-55).
-/

/-- A filesystem node found by `rglob`: a regular file with its byte
content (modelled as a `String`), or a directory. -/
inductive FsNode where
  | file (content : String)
  | dir
deriving DecidableEq

/-- What the path handed to `compress_folder` resolves to:
missing (line 29), an existing non-directory (line 33), or a
directory with its `rglob('*')` snapshot (relative path segments and
node kind for every entry below the root, in traversal order). -/
inductive SourcePath where
  | absent
  | notDir
  | dir (entries : List (List String × FsNode))
deriving DecidableEq

/-- The archive entry written for one `rglob` result: regular files
yield `(str(arcname), content)`, directories yield nothing
(source lines 52-55). -/
def renderFile : List String × FsNode → Option (String × String)
  | (p, .file c) => some (pyJoin p, c)
  | (_, .dir) => none

/-- Result of `compress_folder`: the returned boolean and the archive
file produced (`none` when the function returns before creating the
`ZipFile`, as it does on both precondition failures). -/
structure CompressResult where
  ok : Bool
  archive : Option (List (String × String))
deriving DecidableEq

/-- `compress_folder` (source lines 15-63): fail without creating an
archive when the source path is missing or not a directory; otherwise
create the archive holding exactly the regular files of the snapshot
under their relative arcnames. -/
def compress_folder : SourcePath → CompressResult
  | .absent => ⟨false, none⟩
  | .notDir => ⟨false, none⟩
  | .dir entries => ⟨true, some (entries.filterMap renderFile)⟩

/-! ## The extractor: `extract_zip` (source lines 66-138) -/

/-- One member of an opened archive: its stored name, its content, and
whether its stored data is corrupt (CRC mismatch), in which case both
`testzip` reports it and any attempt to read it raises. -/
structure ZipEntry where
  filename : String
  content : String
  corrupt : Bool
deriving DecidableEq

/-- Models `zipfile.ZipFile.testzip` (source line 106): the name of
the first corrupt member, or `none` when all members check out. -/
def testzip (entries : List ZipEntry) : Option String :=
  (entries.find? (fun e => e.corrupt)).map (fun e => e.filename)

/-- Python truthiness of `bad_file` on source line 107: an `Option
String` is truthy iff it is `some` of a non-empty string. -/
def pyTruthy : Option String → Bool
  | none => false
  | some s => s ≠ ""

/-- What opening the archive path yields: `badZip` when the container
cannot be parsed (`zipfile.BadZipFile`, caught on source line 133), or
a parsed container with its member list. -/
inductive Container where
  | badZip
  | zip (entries : List ZipEntry)
deriving DecidableEq

/-- What the path handed to `extract_zip` resolves to: missing
(line 80), an existing non-regular-file (line 84), or a regular file
whose bytes form the given container. -/
inductive PathState where
  | absent
  | notFile
  | file (container : Container)
deriving DecidableEq

/-- The extractor's input: the final name component of the archive
path (which determines `zip_path.suffix`) and what the path resolves
to. -/
structure ZipSource where
  name : String
  state : PathState
deriving DecidableEq

/-- Observable outcome of `extract_zip`: the returned boolean, whether
the destination directory was created (`mkdir` on line 99), whether
the container was opened (`ZipFile(...)` on line 104), and the files
written under the destination (entry name and content, in order). -/
structure ExtractResult where
  ok : Bool
  destDirCreated : Bool
  openedArchive : Bool
  written : List (String × String)
deriving DecidableEq

/-- The per-entry loop of `extract_zip` (source lines 116-128): skip
entries with unsafe names (lines 119-121); attempt `zipf.extract` on
the rest, where a corrupt member or a failing write raises an
exception that the per-entry handler catches and turns into a skip
(lines 126-128); every other entry is written.  `writeFails` gives,
per entry position, whether the write attempt raises. -/
def extractEntries : List ZipEntry → List Bool → List (String × String)
  | [], _ => []
  | e :: es, fs =>
    if isUnsafeName e.filename then extractEntries es fs.tail
    else if e.corrupt || fs.headD false then extractEntries es fs.tail
    else (e.filename, e.content) :: extractEntries es fs.tail

/-- `extract_zip` (source lines 66-138): precondition checks in source
order (exists, is a regular file, suffix `.zip` case-insensitively),
then `mkdir` of the destination, then opening the container (which may
raise `BadZipFile`), then the `testzip` truthiness gate, then the
per-entry loop. -/
def extract_zip (src : ZipSource) (writeFails : List Bool) : ExtractResult :=
  match src.state with
  | .absent => ⟨false, false, false, []⟩
  | .notFile => ⟨false, false, false, []⟩
  | .file cont =>
    if pyLower (pySuffix src.name) ≠ ".zip" then ⟨false, false, false, []⟩
    else
      match cont with
      | .badZip => ⟨false, true, true, []⟩
      | .zip es =>
        if pyTruthy (testzip es) then ⟨false, true, true, []⟩
        else ⟨true, true, true, extractEntries es writeFails⟩

/-- The container obtained by writing an archive file produced by the
archiver and reading it back: the same members, none corrupt. -/
def toZipEntries (ar : List (String × String)) : List ZipEntry :=
  ar.map (fun nc => ⟨nc.1, nc.2, false⟩)

/-! ## The dispatcher: `main` (source lines 141-180) -/

/-- The parsed command line: the positional `path` and the two
`store_true` flags `-c` or `--compress` and `-x` or `--extract`. -/
structure Args where
  path : String
  compress : Bool
  extract : Bool
deriving DecidableEq

/-- Outcome of `argparse.parse_args`: parsed arguments, or a
`SystemExit` carrying the exit code argparse used (2 for a usage
error, 0 for `--help`). -/
inductive ParseResult where
  | ok (a : Args)
  | exit (code : Nat)
deriving DecidableEq

/-- Modelled from Python `argparse` documented semantics for the
parser built on source lines 148-151 (one required positional `path`,
`store_true` flags `-c` or `--compress` and `-x` or `--extract`, automatic
`-h` or `--help`): `-h` exits with code 0; an unknown option, a second
positional, or a missing positional is a usage error exiting with
code 2.  (Option abbreviation and `--` handling are outside the
modelled subset; no claim depends on them.) -/
def parseArgsGo : List String → Option String → Bool → Bool → ParseResult
  | [], pos, c, x =>
    match pos with
    | some p => .ok ⟨p, c, x⟩
    | none => .exit 2
  | a :: rest, pos, c, x =>
    if a = "-h" ∨ a = "--help" then .exit 0
    else if a = "-c" ∨ a = "--compress" then parseArgsGo rest pos true x
    else if a = "-x" ∨ a = "--extract" then parseArgsGo rest pos c true
    else if a.toList.head? = some '-' ∧ a ≠ "-" then .exit 2
    else
      match pos with
      | none => parseArgsGo rest (some a) c x
      | some _ => .exit 2

/-- `parser.parse_args()` on the argument vector after the program
name (source line 153). -/
def parse_args (argv : List String) : ParseResult :=
  parseArgsGo argv none false false

/-- The operation selection of `main` (source lines 159-166):
`success` starts `False`, the compress flag takes priority, and with
neither flag no operation runs. -/
def runSelected (a : Args) (src : SourcePath) (zsrc : ZipSource)
    (writeFails : List Bool) : Bool :=
  if a.compress then (compress_folder src).ok
  else if a.extract then (extract_zip zsrc writeFails).ok
  else false

/-- The process exit code of `main` (source lines 141-180).  A
`SystemExit` raised by `argparse` is not an `Exception`, so the
`except Exception` handler on line 173 does not catch it and the
process terminates with argparse's code.  `unexpected` models any
other `Exception` escaping the body of the `try` after parsing: it is
caught on line 173, `success` is set to `False`, and the process exits
with code 1 (line 180). -/
def mainExitCode (argv : List String) (src : SourcePath) (zsrc : ZipSource)
    (writeFails : List Bool) (unexpected : Bool) : Nat :=
  match parse_args argv with
  | .exit c => c
  | .ok a =>
    if unexpected then 1
    else if runSelected a src zsrc writeFails then 0 else 1

/-! ## Helper lemmas -/

theorem containsDD_cons_of (c : Char) (cs : List Char)
    (h : containsDD cs = true) : containsDD (c :: cs) = true := by
  cases cs with
  | nil => simp [containsDD] at h
  | cons d rest => simp [containsDD, h]

theorem splitSegs_ne_nil (cs : List Char) : splitSegs cs ≠ [] := by
  induction cs with
  | nil => simp [splitSegs]
  | cons c cs ih =>
    simp only [splitSegs]
    split
    · simp
    · split <;> simp

theorem splitSegs_head_ex (cs : List Char) :
    ∀ s ss, splitSegs cs = s :: ss → ∃ r, cs = s ++ r := by
  induction cs with
  | nil =>
    intro s ss h
    simp only [splitSegs, List.cons.injEq] at h
    exact ⟨[], by simp [← h.1]⟩
  | cons c cs ih =>
    intro s ss h
    by_cases hc : c = '/'
    · simp only [splitSegs, if_pos hc, List.cons.injEq] at h
      exact ⟨c :: cs, by rw [← h.1]; rfl⟩
    · rcases hsp : splitSegs cs with _ | ⟨t, ts⟩
      · exact absurd hsp (splitSegs_ne_nil cs)
      · simp only [splitSegs, if_neg hc, hsp, List.cons.injEq] at h
        obtain ⟨r, hr⟩ := ih t ts hsp
        exact ⟨r, by rw [← h.1, hr]; rfl⟩

theorem containsDD_of_mem_splitSegs (cs : List Char)
    (h : ['.', '.'] ∈ splitSegs cs) : containsDD cs = true := by
  induction cs with
  | nil => simp [splitSegs] at h
  | cons c cs ih =>
    by_cases hc : c = '/'
    · simp only [splitSegs, if_pos hc, List.mem_cons] at h
      rcases h with h | h
      · simp at h
      · exact containsDD_cons_of c cs (ih h)
    · rcases hsp : splitSegs cs with _ | ⟨t, ts⟩
      · exact absurd hsp (splitSegs_ne_nil cs)
      · simp only [splitSegs, if_neg hc, hsp, List.mem_cons, List.cons.injEq] at h
        rcases h with ⟨h1, h2⟩ | h
        · obtain ⟨r, hr⟩ := splitSegs_head_ex cs t ts hsp
          subst hr
          rw [← h2, ← h1]
          simp [containsDD]
        · exact containsDD_cons_of c cs (ih (hsp ▸ List.mem_cons_of_mem t h))

theorem hasDotDot_of_segment (s : String) (h : hasDotDotSegment s = true) :
    hasDotDot s = true := by
  simp only [hasDotDotSegment, List.contains, List.elem_iff] at h
  exact containsDD_of_mem_splitSegs s.toList h

theorem isUnsafeName_of_claim_unsafe (s : String)
    (h : hasDotDotSegment s = true ∨ startsWithSlash s = true) :
    isUnsafeName s = true := by
  rcases h with h | h
  · simp [isUnsafeName, hasDotDot_of_segment s h]
  · simp [isUnsafeName, h]

theorem containsDD_append_sep (a b : List Char)
    (ha : containsDD a = false) (hb : containsDD b = false) :
    containsDD (a ++ '/' :: b) = false := by
  have hslash : ('/' == '.') = false := by decide
  induction a with
  | nil =>
    cases b with
    | nil => rfl
    | cons e b' =>
      simp only [List.nil_append, containsDD, hslash, Bool.false_and,
        Bool.false_or]
      exact hb
  | cons c a ih =>
    cases a with
    | nil =>
      have h0 : containsDD ('/' :: b) = false := by
        simpa using ih rfl
      simp [containsDD, h0, hslash]
    | cons d a' =>
      simp only [containsDD, Bool.or_eq_false_iff] at ha
      have h1 := ih ha.2
      simp only [List.cons_append] at h1 ⊢
      simp only [containsDD, ha.1, h1, Bool.or_false, Bool.false_or]

theorem toList_pyJoin_cons (s t : String) (ts : List String) :
    (pyJoin (s :: t :: ts)).toList = s.toList ++ '/' :: (pyJoin (t :: ts)).toList := by
  show (s ++ "/" ++ pyJoin (t :: ts)).toList = _
  simp [String.toList, String.data_append]

theorem pyJoin_no_dd (p : List String)
    (h : ∀ s ∈ p, containsDD s.toList = false) :
    containsDD (pyJoin p).toList = false := by
  induction p with
  | nil => rfl
  | cons s ts ih =>
    cases ts with
    | nil => exact h s (List.mem_cons_self _ _)
    | cons t ts' =>
      rw [toList_pyJoin_cons]
      exact containsDD_append_sep _ _ (h s (List.mem_cons_self _ _))
        (ih (fun u hu => h u (List.mem_cons_of_mem s hu)))

theorem pyJoin_no_slash_head (p : List String)
    (h : ∀ s ∈ p, s.toList ≠ [] ∧ '/' ∉ s.toList) :
    startsWithSlash (pyJoin p) = false := by
  cases p with
  | nil => rfl
  | cons s ts =>
    obtain ⟨hne, hni⟩ := h s (List.mem_cons_self _ _)
    rcases hs : s.toList with _ | ⟨c, cs⟩
    · exact absurd hs hne
    · have hc : (c == '/') = false := by
        simp only [beq_eq_false_iff_ne, ne_eq]
        intro h'
        exact hni (by rw [hs, h']; exact List.mem_cons_self _ _)
      have hs' : s.data = c :: cs := hs
      cases ts with
      | nil => simp [startsWithSlash, pyJoin, String.toList, hs', hc]
      | cons t ts' =>
        have hj : (pyJoin (s :: t :: ts')).data
            = c :: (cs ++ '/' :: (pyJoin (t :: ts')).data) := by
          have hl := toList_pyJoin_cons s t ts'
          simp only [String.toList] at hl
          rw [hl, hs']
          rfl
        simp [startsWithSlash, String.toList, hj, hc]

theorem pyJoin_safe (p : List String)
    (h : ∀ s ∈ p, s.toList ≠ [] ∧ '/' ∉ s.toList ∧ containsDD s.toList = false) :
    isUnsafeName (pyJoin p) = false := by
  simp only [isUnsafeName, hasDotDot, Bool.or_eq_false_iff]
  exact ⟨pyJoin_no_dd p (fun s hs => (h s hs).2.2),
    pyJoin_no_slash_head p (fun s hs => ⟨(h s hs).1, (h s hs).2.1⟩)⟩

theorem extractEntries_all_safe (es : List ZipEntry) :
    ∀ (fs : List Bool), ∀ nc ∈ extractEntries es fs, isUnsafeName nc.1 = false := by
  induction es with
  | nil => intro fs nc h; simp [extractEntries] at h
  | cons e es ih =>
    intro fs nc hnc
    simp only [extractEntries] at hnc
    by_cases hu : isUnsafeName e.filename = true
    · rw [if_pos hu] at hnc
      exact ih fs.tail nc hnc
    · rw [if_neg hu] at hnc
      by_cases hcf : (e.corrupt || fs.headD false) = true
      · rw [if_pos hcf] at hnc
        exact ih fs.tail nc hnc
      · rw [if_neg hcf] at hnc
        rcases List.mem_cons.mp hnc with h | h
        · rw [h]
          exact Bool.not_eq_true _ ▸ Bool.of_not_eq_true hu
        · exact ih fs.tail nc h

theorem not_written_of_unsafe (es : List ZipEntry) (fs : List Bool)
    (name : String) (h : isUnsafeName name = true) :
    name ∉ (extractEntries es fs).map Prod.fst := by
  intro hmem
  obtain ⟨nc, hnc, hfst⟩ := List.mem_map.mp hmem
  have hsafe := extractEntries_all_safe es fs nc hnc
  rw [hfst] at hsafe
  rw [hsafe] at h
  exact Bool.false_ne_true h

theorem extractEntries_clean (es : List ZipEntry)
    (h : ∀ e ∈ es, isUnsafeName e.filename = false ∧ e.corrupt = false) :
    extractEntries es [] = es.map (fun e => (e.filename, e.content)) := by
  induction es with
  | nil => rfl
  | cons e es ih =>
    obtain ⟨hu, hc⟩ := h e (List.mem_cons_self _ _)
    simp only [extractEntries, hu, hc, List.headD_nil, List.tail_nil,
      Bool.or_self, Bool.false_eq_true, if_false, List.map_cons]
    exact congrArg _ (ih (fun u hu' => h u (List.mem_cons_of_mem e hu')))

theorem extractEntries_append (es₁ es₂ : List ZipEntry) (fs : List Bool) :
    extractEntries (es₁ ++ es₂) fs
      = extractEntries es₁ fs ++ extractEntries es₂ (fs.drop es₁.length) := by
  induction es₁ generalizing fs with
  | nil => simp [extractEntries]
  | cons e es ih =>
    have htail : fs.tail.drop es.length = fs.drop (es.length + 1) := by
      rw [← List.drop_one, List.drop_drop, Nat.add_comm]
    rw [List.cons_append]
    simp only [extractEntries, List.length_cons]
    rw [ih fs.tail, htail]
    by_cases hu : isUnsafeName e.filename = true
    · rw [if_pos hu, if_pos hu]
    · rw [if_neg hu, if_neg hu]
      by_cases hcf : (e.corrupt || fs.headD false) = true
      · rw [if_pos hcf, if_pos hcf]
      · rw [if_neg hcf, if_neg hcf, List.cons_append]

theorem testzip_toZipEntries (ar : List (String × String)) :
    testzip (toZipEntries ar) = none := by
  have : (toZipEntries ar).find? (fun e => e.corrupt) = none := by
    rw [List.find?_eq_none]
    intro e he
    obtain ⟨nc, _, rfl⟩ := List.mem_map.mp he
    simp
  simp [testzip, this]

theorem archive_entries_clean (es : List (List String × FsNode))
    (h : ∀ pr ∈ es, ∀ s ∈ pr.1,
      s.toList ≠ [] ∧ '/' ∉ s.toList ∧ containsDD s.toList = false) :
    ∀ e ∈ toZipEntries (es.filterMap renderFile),
      isUnsafeName e.filename = false ∧ e.corrupt = false := by
  intro e he
  obtain ⟨nc, hnc, rfl⟩ := List.mem_map.mp he
  obtain ⟨pr, hpr, hren⟩ := List.mem_filterMap.mp hnc
  refine ⟨?_, rfl⟩
  rcases pr with ⟨p, n⟩
  cases n with
  | dir => simp [renderFile] at hren
  | file c =>
    simp only [renderFile, Option.some.injEq] at hren
    rw [← hren]
    exact pyJoin_safe p (h (p, .file c) hpr)

theorem not_written_of_unsafe_src (src : ZipSource) (fs : List Bool)
    (nm : String) (h : isUnsafeName nm = true) :
    nm ∉ ((extract_zip src fs).written).map Prod.fst := by
  rcases src with ⟨name, st⟩
  cases st with
  | absent => simp [extract_zip]
  | notFile => simp [extract_zip]
  | file cont =>
    cases cont with
    | badZip =>
      by_cases hsuf : pyLower (pySuffix name) ≠ ".zip"
      · simp [extract_zip, hsuf]
      · simp [extract_zip, not_not.mp hsuf]
    | zip es =>
      by_cases hsuf : pyLower (pySuffix name) ≠ ".zip"
      · simp [extract_zip, hsuf]
      · by_cases ht : pyTruthy (testzip es) = true
        · simp [extract_zip, not_not.mp hsuf, ht]
        · have hres : (extract_zip ⟨name, .file (.zip es)⟩ fs).written
              = extractEntries es fs := by
            simp [extract_zip, not_not.mp hsuf, ht]
          rw [hres]
          exact not_written_of_unsafe es fs nm h

theorem extract_open_result (name : String) (es : List ZipEntry)
    (fs : List Bool) (hsuf : pyLower (pySuffix name) = ".zip")
    (htest : pyTruthy (testzip es) = false) :
    extract_zip ⟨name, .file (.zip es)⟩ fs
      = ⟨true, true, true, extractEntries es fs⟩ := by
  simp [extract_zip, hsuf, htest]

/-! ## The claims -/

/-- Claim C1: every archive entry whose name contains a
parent-directory traversal component (a `..` path segment) or whose
name is an absolute path (a leading `/`, the form absolute ZIP entry
names take) is skipped by `extract_zip` without aborting: no file is
written for that name (so nothing is created outside the destination
directory for it — every name that is written is free of `..` and of a
leading `/`, hence resolves under the destination), and the operation
still reports overall success when no other fatal condition occurred
(the suffix precondition holds and the whole-archive validation gate
does not fire). -/
theorem extract_skips_traversal_and_absolute (name : String)
    (es : List ZipEntry) (fs : List Bool) (e : ZipEntry) (he : e ∈ es)
    (hun : hasDotDotSegment e.filename = true ∨ startsWithSlash e.filename = true)
    (hsuf : pyLower (pySuffix name) = ".zip")
    (htest : pyTruthy (testzip es) = false) :
    (extract_zip ⟨name, .file (.zip es)⟩ fs).ok = true ∧
    e.filename ∉ ((extract_zip ⟨name, .file (.zip es)⟩ fs).written).map Prod.fst ∧
    ((extract_zip ⟨name, .file (.zip es)⟩ fs).written).all
      (fun nc => !isUnsafeName nc.1) = true := by
  have hres := extract_open_result name es fs hsuf htest
  have hu := isUnsafeName_of_claim_unsafe e.filename hun
  refine ⟨by rw [hres], ?_, ?_⟩
  · rw [hres]
    exact not_written_of_unsafe es fs e.filename hu
  · rw [hres]
    simp only [List.all_eq_true, Bool.not_eq_true']
    intro nc hnc
    exact extractEntries_all_safe es fs nc hnc

/-- Witness for C1: an archive containing `../evil.txt` next to a
safe entry; the traversal entry is skipped and extraction succeeds. -/
theorem extract_skips_traversal_witness :
    (⟨"../evil.txt", "x", false⟩ : ZipEntry)
        ∈ [(⟨"../evil.txt", "x", false⟩ : ZipEntry), ⟨"ok.txt", "y", false⟩] ∧
    hasDotDotSegment "../evil.txt" = true ∧
    pyLower (pySuffix "t.zip") = ".zip" ∧
    pyTruthy (testzip [⟨"../evil.txt", "x", false⟩, ⟨"ok.txt", "y", false⟩]) = false ∧
    ((extract_zip ⟨"t.zip", .file (.zip [⟨"../evil.txt", "x", false⟩,
        ⟨"ok.txt", "y", false⟩])⟩ []).ok = true ∧
      "../evil.txt" ∉ ((extract_zip ⟨"t.zip", .file (.zip [⟨"../evil.txt", "x", false⟩,
        ⟨"ok.txt", "y", false⟩])⟩ []).written).map Prod.fst ∧
      ((extract_zip ⟨"t.zip", .file (.zip [⟨"../evil.txt", "x", false⟩,
        ⟨"ok.txt", "y", false⟩])⟩ []).written).all (fun nc => !isUnsafeName nc.1) = true) :=
  ⟨by decide, by decide, by decide, by decide,
    extract_skips_traversal_and_absolute "t.zip"
      [⟨"../evil.txt", "x", false⟩, ⟨"ok.txt", "y", false⟩] []
      ⟨"../evil.txt", "x", false⟩ (by decide) (Or.inl (by decide))
      (by decide) (by decide)⟩

/-- Claim C9: the extraction path-safety predicate rejects any entry
whose name contains the substring `..` anywhere — broader than
`..` path segments — and every such entry is skipped: its name is
never among the written files, whatever the archive around it and
whatever the per-entry write outcomes. -/
theorem substring_dotdot_skipped (src : ZipSource) (es : List ZipEntry)
    (fs : List Bool) (e : ZipEntry) (he : e ∈ es)
    (hdd : hasDotDot e.filename = true) :
    isUnsafeName e.filename = true ∧
    e.filename ∉ ((extract_zip src fs).written).map Prod.fst := by
  have hu : isUnsafeName e.filename = true := by
    simp [isUnsafeName, hdd]
  exact ⟨hu, not_written_of_unsafe_src src fs e.filename hu⟩

/-- Witness for C9: the name `a..b.txt` contains `..` without any
`..` path segment, and the entry carrying it is not extracted. -/
theorem substring_dotdot_witness :
    (⟨"a..b.txt", "x", false⟩ : ZipEntry) ∈ [(⟨"a..b.txt", "x", false⟩ : ZipEntry)] ∧
    hasDotDot "a..b.txt" = true ∧
    hasDotDotSegment "a..b.txt" = false ∧
    (isUnsafeName "a..b.txt" = true ∧
      "a..b.txt" ∉ ((extract_zip ⟨"t.zip", .file (.zip [⟨"a..b.txt", "x", false⟩])⟩
        []).written).map Prod.fst) :=
  ⟨by decide, by decide, by decide,
    substring_dotdot_skipped ⟨"t.zip", .file (.zip [⟨"a..b.txt", "x", false⟩])⟩
      [⟨"a..b.txt", "x", false⟩] [] ⟨"a..b.txt", "x", false⟩ (by decide) (by decide)⟩

/-- Counterexample for C2: a directory containing exactly one regular
file named `a..b.txt` (a legitimate filename with no traversal
segment).  Compression succeeds and stores the file, but extraction
skips it — the name contains the substring `..` — so the round trip
reproduces an empty set of files, not the same set. -/
theorem roundtrip_counterexample_dotdot_name :
    compress_folder (.dir [(["a..b.txt"], .file "x")])
      = ⟨true, some [("a..b.txt", "x")]⟩ ∧
    (extract_zip ⟨"D.zip", .file (.zip (toZipEntries [("a..b.txt", "x")]))⟩ []).ok = true ∧
    (extract_zip ⟨"D.zip", .file (.zip (toZipEntries [("a..b.txt", "x")]))⟩ []).written
      = [] :=
  ⟨by decide, by decide, by decide⟩

/-- Claim C2 (amended): for every directory D of regular files whose
path segments are genuine filesystem names (non-empty, `/`-free) and
contain no `..` substring, extracting the archive produced by
compressing D writes back exactly the same relative file paths with
byte-identical contents (the written list is exactly the archive's
rendered file list, in order). -/
theorem roundtrip_clean_names (es : List (List String × FsNode))
    (h : ∀ pr ∈ es, ∀ s ∈ pr.1,
      s.toList ≠ [] ∧ '/' ∉ s.toList ∧ containsDD s.toList = false) :
    (compress_folder (.dir es)).ok = true ∧
    (compress_folder (.dir es)).archive = some (es.filterMap renderFile) ∧
    (extract_zip ⟨"D.zip", .file (.zip (toZipEntries (es.filterMap renderFile)))⟩ []).ok
      = true ∧
    (extract_zip ⟨"D.zip", .file (.zip (toZipEntries (es.filterMap renderFile)))⟩ []).written
      = es.filterMap renderFile := by
  have hclean := archive_entries_clean es h
  have htz : pyTruthy (testzip (toZipEntries (es.filterMap renderFile))) = false := by
    rw [testzip_toZipEntries]
    rfl
  have hsuf : pyLower (pySuffix "D.zip") = ".zip" := by decide
  have hres := extract_open_result "D.zip" (toZipEntries (es.filterMap renderFile)) []
    hsuf htz
  refine ⟨rfl, rfl, by rw [hres], ?_⟩
  rw [hres]
  show extractEntries (toZipEntries (es.filterMap renderFile)) [] = _
  rw [extractEntries_clean _ hclean]
  simp only [toZipEntries, List.map_map]
  have hid : ((fun e : ZipEntry => (e.filename, e.content)) ∘
      fun nc : String × String => (⟨nc.1, nc.2, false⟩ : ZipEntry)) = fun nc => nc := by
    funext nc
    rfl
  rw [hid]
  simp

/-- Witness for C2 (amended): a directory holding `a.txt` and
`sub/b.txt` (plus the subdirectory itself) round-trips exactly. -/
theorem roundtrip_clean_names_witness :
    (∀ pr ∈ [((["a.txt"] : List String), FsNode.file "hello"),
        (["sub"], FsNode.dir), (["sub", "b.txt"], FsNode.file "world")],
      ∀ s ∈ pr.1, s.toList ≠ [] ∧ '/' ∉ s.toList ∧ containsDD s.toList = false) ∧
    ((compress_folder (.dir [((["a.txt"] : List String), FsNode.file "hello"),
        (["sub"], FsNode.dir), (["sub", "b.txt"], FsNode.file "world")])).ok = true ∧
      (compress_folder (.dir [((["a.txt"] : List String), FsNode.file "hello"),
        (["sub"], FsNode.dir), (["sub", "b.txt"], FsNode.file "world")])).archive
        = some ([((["a.txt"] : List String), FsNode.file "hello"),
            (["sub"], FsNode.dir), (["sub", "b.txt"], FsNode.file "world")].filterMap
              renderFile) ∧
      (extract_zip ⟨"D.zip", .file (.zip (toZipEntries
          ([((["a.txt"] : List String), FsNode.file "hello"),
            (["sub"], FsNode.dir), (["sub", "b.txt"], FsNode.file "world")].filterMap
              renderFile)))⟩ []).ok = true ∧
      (extract_zip ⟨"D.zip", .file (.zip (toZipEntries
          ([((["a.txt"] : List String), FsNode.file "hello"),
            (["sub"], FsNode.dir), (["sub", "b.txt"], FsNode.file "world")].filterMap
              renderFile)))⟩ []).written
        = [((["a.txt"] : List String), FsNode.file "hello"),
            (["sub"], FsNode.dir), (["sub", "b.txt"], FsNode.file "world")].filterMap
              renderFile) :=
  ⟨by decide,
    roundtrip_clean_names [((["a.txt"] : List String), FsNode.file "hello"),
      (["sub"], FsNode.dir), (["sub", "b.txt"], FsNode.file "world")] (by decide)⟩

/-- Counterexample for C3: an archive whose first corrupt member has
the empty string as its name.  `testzip` detects and reports it, but
the Python truthiness test `if bad_file:` treats `''` as falsy, so
extraction is NOT aborted: the operation reports success and the sound
entry `a.txt` is written. -/
theorem corrupt_empty_name_not_aborted :
    testzip [⟨"", "x", true⟩, ⟨"a.txt", "y", false⟩] = some "" ∧
    (extract_zip ⟨"b.zip", .file (.zip [⟨"", "x", true⟩, ⟨"a.txt", "y", false⟩])⟩
      []).ok = true ∧
    (extract_zip ⟨"b.zip", .file (.zip [⟨"", "x", true⟩, ⟨"a.txt", "y", false⟩])⟩
      []).written = [("a.txt", "y")] :=
  ⟨by decide, by decide, by decide⟩

/-- Claim C3 (amended): for every archive that opens as a valid
container and whose whole-archive validation reports a corrupt member
with a non-empty name, extraction aborts before writing any entry and
the call returns failure. -/
theorem corrupt_member_aborts (name : String) (es : List ZipEntry)
    (fs : List Bool) (b : String)
    (hsuf : pyLower (pySuffix name) = ".zip")
    (ht : testzip es = some b) (hb : b ≠ "") :
    (extract_zip ⟨name, .file (.zip es)⟩ fs).ok = false ∧
    (extract_zip ⟨name, .file (.zip es)⟩ fs).written = [] := by
  have htruthy : pyTruthy (testzip es) = true := by
    rw [ht]
    simp [pyTruthy, hb]
  have hres : extract_zip ⟨name, .file (.zip es)⟩ fs = ⟨false, true, true, []⟩ := by
    simp [extract_zip, hsuf, htruthy]
  rw [hres]
  exact ⟨rfl, rfl⟩

/-- Witness for C3 (amended): a corrupt member named `bad.txt` aborts
extraction with nothing written. -/
theorem corrupt_member_aborts_witness :
    pyLower (pySuffix "c.zip") = ".zip" ∧
    testzip [⟨"bad.txt", "x", true⟩, ⟨"good.txt", "y", false⟩] = some "bad.txt" ∧
    ("bad.txt" : String) ≠ "" ∧
    ((extract_zip ⟨"c.zip", .file (.zip [⟨"bad.txt", "x", true⟩,
        ⟨"good.txt", "y", false⟩])⟩ []).ok = false ∧
      (extract_zip ⟨"c.zip", .file (.zip [⟨"bad.txt", "x", true⟩,
        ⟨"good.txt", "y", false⟩])⟩ []).written = []) :=
  ⟨by decide, by decide, by decide,
    corrupt_member_aborts "c.zip" [⟨"bad.txt", "x", true⟩, ⟨"good.txt", "y", false⟩]
      [] "bad.txt" (by decide) (by decide) (by decide)⟩

/-- Claim C4: whenever the input path's file extension is not `.zip`
(case-insensitively, with `pathlib`'s notion of suffix), `extract_zip`
returns failure and never opens the file as an archive — this also
holds when the path is missing or not a regular file, where the
earlier precondition checks fail first. -/
theorem wrong_extension_fails_without_open (src : ZipSource) (fs : List Bool)
    (h : pyLower (pySuffix src.name) ≠ ".zip") :
    (extract_zip src fs).ok = false ∧ (extract_zip src fs).openedArchive = false := by
  rcases src with ⟨name, st⟩
  cases st with
  | absent => exact ⟨rfl, rfl⟩
  | notFile => exact ⟨rfl, rfl⟩
  | file cont =>
    have hres : extract_zip ⟨name, .file cont⟩ fs = ⟨false, false, false, []⟩ := by
      simp only [extract_zip]
      rw [if_pos h]
    rw [hres]
    exact ⟨rfl, rfl⟩

/-- Witness for C4: a `.txt` path holding a perfectly valid container
is still rejected without being opened. -/
theorem wrong_extension_witness :
    pyLower (pySuffix "a.txt") ≠ ".zip" ∧
    ((extract_zip ⟨"a.txt", .file (.zip [⟨"m.txt", "x", false⟩])⟩ []).ok = false ∧
      (extract_zip ⟨"a.txt", .file (.zip [⟨"m.txt", "x", false⟩])⟩ []).openedArchive
        = false) :=
  ⟨by decide,
    wrong_extension_fails_without_open ⟨"a.txt", .file (.zip [⟨"m.txt", "x", false⟩])⟩
      [] (by decide)⟩

/-- Claim C6: compressing a path that does not exist, or that exists
but is not a directory, returns failure and produces no output
archive file. -/
theorem compress_precondition_no_archive :
    compress_folder .absent = ⟨false, none⟩ ∧
    compress_folder .notDir = ⟨false, none⟩ :=
  ⟨rfl, rfl⟩

/-- Claim C7: a per-entry recoverable condition — an unsafe entry
name, a corrupt member slipping past the (falsy) validation gate, or a
failing write for one entry — makes the extractor skip exactly that
entry and continue with the remaining ones, and does not by itself
cause `extract_zip` to return failure: the written list is the one for
the entries before it followed by the one for the entries after it,
and the result is still success. -/
theorem extract_entry_isolation (name : String) (es₁ es₂ : List ZipEntry)
    (e : ZipEntry) (fs : List Bool)
    (h : isUnsafeName e.filename = true ∨ e.corrupt = true ∨
      (fs.drop es₁.length).headD false = true)
    (hsuf : pyLower (pySuffix name) = ".zip")
    (htest : pyTruthy (testzip (es₁ ++ e :: es₂)) = false) :
    (extract_zip ⟨name, .file (.zip (es₁ ++ e :: es₂))⟩ fs).ok = true ∧
    (extract_zip ⟨name, .file (.zip (es₁ ++ e :: es₂))⟩ fs).written
      = extractEntries es₁ fs ++ extractEntries es₂ (fs.drop (es₁.length + 1)) := by
  have hres := extract_open_result name (es₁ ++ e :: es₂) fs hsuf htest
  refine ⟨by rw [hres], ?_⟩
  rw [hres]
  show extractEntries (es₁ ++ e :: es₂) fs = _
  rw [extractEntries_append]
  congr 1
  have hskip : extractEntries (e :: es₂) (fs.drop es₁.length)
      = extractEntries es₂ (fs.drop es₁.length).tail := by
    rcases h with h | h | h
    · simp [extractEntries, h]
    · by_cases hu : isUnsafeName e.filename = true
      · simp [extractEntries, hu]
      · simp [extractEntries, hu, h]
    · by_cases hu : isUnsafeName e.filename = true
      · simp [extractEntries, hu]
      · have hcond : (e.corrupt || (fs.drop es₁.length).headD false) = true := by
          rw [h, Bool.or_true]
        simp only [extractEntries]
        rw [if_neg hu, if_pos hcond]
  rw [hskip, ← List.drop_one, List.drop_drop]

/-- Witness for C7: the middle entry's write fails (oracle position 1)
while its neighbours extract normally; the result is success with the
first and third entries written. -/
theorem extract_entry_isolation_witness :
    (isUnsafeName "b.txt" = true ∨ (false : Bool) = true ∨
      (([false, true, false].drop ([(⟨"a.txt", "A", false⟩ : ZipEntry)]).length).headD
        false) = true) ∧
    pyLower (pySuffix "t.zip") = ".zip" ∧
    pyTruthy (testzip ([⟨"a.txt", "A", false⟩] ++
      (⟨"b.txt", "B", false⟩ : ZipEntry) :: [⟨"c.txt", "C", false⟩])) = false ∧
    ((extract_zip ⟨"t.zip", .file (.zip ([⟨"a.txt", "A", false⟩] ++
        (⟨"b.txt", "B", false⟩ : ZipEntry) :: [⟨"c.txt", "C", false⟩]))⟩
        [false, true, false]).ok = true ∧
      (extract_zip ⟨"t.zip", .file (.zip ([⟨"a.txt", "A", false⟩] ++
        (⟨"b.txt", "B", false⟩ : ZipEntry) :: [⟨"c.txt", "C", false⟩]))⟩
        [false, true, false]).written
        = extractEntries [⟨"a.txt", "A", false⟩] [false, true, false] ++
          extractEntries [⟨"c.txt", "C", false⟩]
            ([false, true, false].drop ([(⟨"a.txt", "A", false⟩ : ZipEntry)].length + 1))) :=
  ⟨Or.inr (Or.inr (by decide)), by decide, by decide,
    extract_entry_isolation "t.zip" [⟨"a.txt", "A", false⟩] [⟨"c.txt", "C", false⟩]
      ⟨"b.txt", "B", false⟩ [false, true, false] (Or.inr (Or.inr (by decide)))
      (by decide) (by decide)⟩

/-- Claim C8: the archive produced from a directory snapshot holds
exactly the regular files under the source root, each under its
relative path: an entry `(n, c)` is in the archive iff some regular
file with content `c` sits at a relative path rendering to `n`;
directories contribute no entries; and compressing an empty directory
succeeds with a zero-entry archive that is itself valid and openable
by the extractor. -/
theorem compress_archive_contents (es : List (List String × FsNode)) :
    (compress_folder (.dir es)).ok = true ∧
    (compress_folder (.dir es)).archive = some (es.filterMap renderFile) ∧
    (∀ n c, (n, c) ∈ es.filterMap renderFile ↔
      ∃ p, (p, FsNode.file c) ∈ es ∧ n = pyJoin p) ∧
    compress_folder (.dir []) = ⟨true, some []⟩ ∧
    extract_zip ⟨"e.zip", .file (.zip (toZipEntries []))⟩ [] = ⟨true, true, true, []⟩ := by
  refine ⟨rfl, rfl, ?_, rfl, by decide⟩
  intro n c
  constructor
  · intro hmem
    obtain ⟨pr, hpr, hren⟩ := List.mem_filterMap.mp hmem
    rcases pr with ⟨p, node⟩
    cases node with
    | dir => simp [renderFile] at hren
    | file c' =>
      simp only [renderFile, Option.some.injEq, Prod.mk.injEq] at hren
      refine ⟨p, ?_, hren.1.symm⟩
      rw [← hren.2]
      exact hpr
  · rintro ⟨p, hp, rfl⟩
    exact List.mem_filterMap.mpr ⟨(p, .file c), hp, rfl⟩

/-- Claim C10: once the three preconditions pass (path exists, is a
regular file, carries the `.zip` suffix), the destination directory is
created no matter what the archive turns out to contain — in
particular it is created (and remains) even when the container is
unparsable and the call returns failure, because the `mkdir` happens
before the archive is opened or validated. -/
theorem dest_dir_created_even_on_failure (name : String) (cont : Container)
    (fs : List Bool) (h : pyLower (pySuffix name) = ".zip") :
    (extract_zip ⟨name, .file cont⟩ fs).destDirCreated = true ∧
    (extract_zip ⟨name, .file .badZip⟩ fs).ok = false := by
  constructor
  · cases cont with
    | badZip => simp [extract_zip, h]
    | zip es =>
      by_cases ht : pyTruthy (testzip es) = true
      · simp [extract_zip, h, ht]
      · simp [extract_zip, h, ht]
  · simp [extract_zip, h]

/-- Witness for C10: an unparsable container at `a.zip`; extraction
fails but the destination directory was created. -/
theorem dest_dir_created_witness :
    pyLower (pySuffix "a.zip") = ".zip" ∧
    ((extract_zip ⟨"a.zip", .file .badZip⟩ []).destDirCreated = true ∧
      (extract_zip ⟨"a.zip", .file .badZip⟩ []).ok = false) :=
  ⟨by decide, dest_dir_created_even_on_failure "a.zip" .badZip [] (by decide)⟩

/-- Counterexample for C5: invoked with no arguments at all, the
required positional `path` is missing, `argparse` raises
`SystemExit(2)` — which `except Exception` does not catch — and the
process exits with code 2, not 0 or 1. -/
theorem main_missing_argument_exits_two :
    mainExitCode [] .absent ⟨"", .absent⟩ [] false = 2 := by decide

/-- Claim C5 (amended): for every invocation whose command line
parses, the process exits 0 exactly when no unexpected exception
occurred and the selected operation reported success, and 1 otherwise;
with neither flag set no operation runs (`runSelected` is `false`, so
the exit code is 1); an `Exception` escaping the dispatch is caught at
top level and yields exit code 1.  Invocations whose arguments fail to
parse terminate with argparse's own `SystemExit` code instead. -/
theorem main_exit_code_of_parsed (argv : List String) (src : SourcePath)
    (zsrc : ZipSource) (fs : List Bool) (u : Bool) (a : Args) (p : String)
    (h : parse_args argv = .ok a) :
    mainExitCode argv src zsrc fs u
      = (if u = false ∧ runSelected a src zsrc fs = true then 0 else 1) ∧
    runSelected ⟨p, false, false⟩ src zsrc fs = false := by
  constructor
  · simp only [mainExitCode, h]
    cases u with
    | false =>
      cases hrs : runSelected a src zsrc fs <;> simp [hrs]
    | true => simp
  · rfl

/-- Witness for C5 (amended): `zip_tool.py d -x` on a missing archive
path parses, the extractor fails, and the exit code is 1. -/
theorem main_exit_code_witness :
    parse_args ["d", "-x"] = .ok ⟨"d", false, true⟩ ∧
    (mainExitCode ["d", "-x"] .absent ⟨"", .absent⟩ [] false
      = (if (false : Bool) = false ∧
          runSelected ⟨"d", false, true⟩ .absent ⟨"", .absent⟩ [] = true then 0 else 1) ∧
      runSelected ⟨"q", false, false⟩ .absent ⟨"", .absent⟩ [] = false) :=
  ⟨by decide,
    main_exit_code_of_parsed ["d", "-x"] .absent ⟨"", .absent⟩ [] false
      ⟨"d", false, true⟩ "q" (by decide)⟩

end ZipTool
